import Mathlib

/-!
Verification development for `scripts/corpus_util.py`, the corpus benchmarking
and regression-comparison pipeline.  The Python source is embedded shallowly:

* the two fixed regular expressions of `run_benchmark_prog` become an explicit
  leftmost-match scanner over `List Char` (for both patterns, the character
  after each `[0-9]+` group is a non-digit, so greedy digit consumption is
  equivalent to the backtracking semantics of `re.search`);
* machine arithmetic is `Nat`/`Int` (Python ints are unbounded) and the ratio
  arithmetic is `ℚ` (the claims are stated over exact arithmetic; the source's
  final 6-significant-digit string formatting is outside the model);
* fallible code (`raise`, failed `assert`, `ZeroDivisionError`, a regex match
  returning `None`) becomes `Except`.
-/

namespace CorpusUtil

/-- Value of a (non-empty) digit group, as `int()` computes it in the source. -/
def digitsToNat (ds : List Char) : Nat :=
  ds.foldl (fun n c => 10 * n + (c.toNat - 48)) 0

/-- Consume a maximal run of decimal digits, returning the run and the rest.
This models `[0-9]+` (the patterns in the source always follow the group with
a non-digit character, so maximal munch agrees with `re` backtracking). -/
def takeDigits : List Char → List Char × List Char
  | [] => ([], [])
  | c :: rest =>
    if c.isDigit then
      let p := takeDigits rest
      (c :: p.1, p.2)
    else ([], c :: rest)

/-- Match a literal character sequence at the front, returning the remainder. -/
def matchLit : List Char → List Char → Option (List Char)
  | [], s => some s
  | _ :: _, [] => none
  | c :: p, d :: s => if d = c then matchLit p s else none

/-- Attempt the pattern `Compressed ([0-9]+) => ([0-9]+) bytes` at the start
of `s`, returning the two captured integers. -/
def matchCompressedAt (s : List Char) : Option (Nat × Nat) := do
  let s1 ← matchLit "Compressed ".data s
  let p1 := takeDigits s1
  if p1.1.isEmpty then none else do
  let s2 ← matchLit " => ".data p1.2
  let p2 := takeDigits s2
  if p2.1.isEmpty then none else do
  let _ ← matchLit " bytes".data p2.2
  pure (digitsToNat p1.1, digitsToNat p2.1)

/-- Attempt the pattern `Compression time: [0-9]+ ms \(([0-9]+) MB/s\)` at the
start of `s`, returning the captured speed group (group 1). -/
def matchTimeAt (s : List Char) : Option (List Char) := do
  let s1 ← matchLit "Compression time: ".data s
  let p1 := takeDigits s1
  if p1.1.isEmpty then none else do
  let s2 ← matchLit " ms (".data p1.2
  let p2 := takeDigits s2
  if p2.1.isEmpty then none else do
  let _ ← matchLit " MB/s)".data p2.2
  pure p2.1

/-- `re.search`: try the matcher at each successive start position, leftmost
match wins. -/
def reSearch (m : List Char → Option α) : List Char → Option α
  | [] => m []
  | c :: rest =>
    match m (c :: rest) with
    | some r => some r
    | none => reSearch m rest

/-- Search for `Compressed ([0-9]+) => ([0-9]+) bytes` anywhere in the text. -/
def searchCompressed (s : List Char) : Option (Nat × Nat) :=
  reSearch matchCompressedAt s

/-- Search for `Compression time: [0-9]+ ms \(([0-9]+) MB/s\)` anywhere. -/
def searchTime (s : List Char) : Option (List Char) :=
  reSearch matchTimeAt s

/-- Error taxonomy of the pipeline (spec section 7).  `parseSize` and
`parseSpeed` are the two `ParseError` shapes (in the source, `match.group` on
`None` raises); `noTrials` models the unbound-variable failure of a zero-trip
sampling loop; `consistency` is the failed `assert usize == libz_usize`;
`divByZero` is Python's `ZeroDivisionError` in the ratio arithmetic. -/
inductive BenchError where
  | parseSize
  | parseSpeed
  | noTrials
  | consistency
  | divByZero
  deriving DecidableEq

/-- Parse one benchmark-process output text: the body of the sampling loop in
`run_benchmark_prog` (sizes from the first pattern, speed from the second). -/
def parseBenchOutput (out : String) : Except BenchError (Nat × Nat × Nat) :=
  match searchCompressed out.data with
  | none => .error .parseSize
  | some (u, c) =>
    match searchTime out.data with
    | none => .error .parseSpeed
    | some g => .ok (u, c, digitsToNat g)

/-- The sampling loop of `run_benchmark_prog`: `usize`/`csize` are overwritten
by each trial, `cspeed` accumulates `max` (seeded with `-1` in the source). -/
def runTrials : List String → Nat → Nat → Int → Except BenchError (Nat × Nat × Int)
  | [], u, c, sp => .ok (u, c, sp)
  | out :: rest, _, _, sp =>
    match parseBenchOutput out with
    | .error e => .error e
    | .ok (u, c, s) => runTrials rest u c (max sp (s : Int))

/-- Number of trials per configuration (`NTRIES = 3` in the source). -/
def NTRIES : Nat := 3

/-- `run_benchmark_prog`, with the outputs of the `NTRIES` external process
invocations supplied as data.  An empty trial list would leave `usize` unbound
in Python (`NameError`), modelled as an error. -/
def run_benchmark_prog (outputs : List String) : Except BenchError (Nat × Nat × Int) :=
  match outputs with
  | [] => .error .noTrials
  | _ :: _ => runTrials outputs 0 0 (-1)

/-- A row of the tabular report, as written by `benchmark_file_level`
(ratio fields kept as exact rationals; the source serializes them). -/
structure BenchmarkRow where
  file : String
  level : Nat
  abs_comp_ratio : ℚ
  rel_comp_ratio : ℚ
  rel_comp_time : ℚ
  deriving DecidableEq

/-- `benchmark_file_level`: run the candidate and the libz baseline, assert the
uncompressed sizes agree, and produce the normalized row.  `file` is the
basename the source computes from the path; the trial outputs of the two
`run_benchmark_prog` calls are supplied as data.  The `divByZero` guards model
Python's `ZeroDivisionError` in the three divisions (the source computes them
right after the assert, in this order). -/
def benchmark_file_level (file : String) (level : Nat)
    (candOutputs libzOutputs : List String) : Except BenchError BenchmarkRow := do
  let (usize, csize, cspeed) ← run_benchmark_prog candOutputs
  let (libz_usize, libz_csize, libz_cspeed) ← run_benchmark_prog libzOutputs
  if usize = libz_usize then
    if usize = 0 then .error .divByZero
    else if libz_csize = 0 then .error .divByZero
    else if cspeed = 0 then .error .divByZero
    else .ok { file := file, level := level
             , abs_comp_ratio := (csize : ℚ) / (usize : ℚ)
             , rel_comp_ratio := (csize : ℚ) / (libz_csize : ℚ)
             , rel_comp_time := (libz_cspeed : ℚ) / (cspeed : ℚ) }
  else .error .consistency

/-- The `fieldnames` list of `run`. -/
def fieldnames : List String :=
  ["file", "level", "abs_comp_ratio", "rel_comp_ratio", "rel_comp_time"]

/-- One line of the streamed tabular report of `run`. -/
inductive RunLine where
  | header (text : String)
  | row (r : BenchmarkRow)
  deriving DecidableEq

/-- `run`: header first, then for every directory entry (no filtering), for
every level in `range(1, 10)`, the row produced for that pair.  `bench` stands
for a measurement run in which every external invocation succeeds (the spec's
deterministic Measurement Runner stub); on failure the source aborts. -/
def run (bench : String → Nat → BenchmarkRow) (listing : List String) : List RunLine :=
  .header (String.intercalate "," fieldnames) ::
    (listing.flatMap fun f => (List.range' 1 9).map fun lvl => .row (bench f lvl))

/-! ### The analyze pipeline -/

/-- A parsed row of the tabular report, as `analyze` loads it: `file` and
`level` stay strings (the source never converts `level` to an integer), the
three ratio fields are parsed as numbers. -/
structure DataRow where
  file : String
  level : String
  abs_comp_ratio : ℚ
  rel_comp_ratio : ℚ
  rel_comp_time : ℚ
  deriving DecidableEq

/-- A raw CSV row as `csv.DictReader` yields it: field name to field text. -/
abbrev RawRow := List (String × String)

/-- `MalformedReportError` shapes: a missing required column (`KeyError`) or a
ratio field that does not parse as a number (`ValueError` from `float`). -/
inductive LoadError where
  | missingColumn (field : String)
  | badNumber (field : String)
  deriving DecidableEq

/-- Fetch a required column from a raw row (`row[field]`). -/
def getColumn (r : RawRow) (k : String) : Except LoadError String :=
  match r.lookup k with
  | some v => .ok v
  | none => .error (.missingColumn k)

/-- Fetch a ratio column and parse it (`float(row[field])`); the number parser
is a parameter of the model. -/
def getRatioColumn (parseVal : String → Option ℚ) (r : RawRow) (k : String) :
    Except LoadError ℚ := do
  let s ← getColumn r k
  match parseVal s with
  | some v => .ok v
  | none => .error (.badNumber k)

/-- Load one raw row into a `DataRow` (the per-row body of the reader loop). -/
def loadRow (parseVal : String → Option ℚ) (r : RawRow) : Except LoadError DataRow := do
  let file ← getColumn r "file"
  let level ← getColumn r "level"
  let a ← getRatioColumn parseVal r "abs_comp_ratio"
  let rc ← getRatioColumn parseVal r "rel_comp_ratio"
  let rt ← getRatioColumn parseVal r "rel_comp_time"
  .ok { file := file, level := level
      , abs_comp_ratio := a, rel_comp_ratio := rc, rel_comp_time := rt }

/-- Load all raw rows; the first malformed row aborts the whole load, exactly
as the exception does in the source. -/
def loadRows (parseVal : String → Option ℚ) :
    List RawRow → Except LoadError (List DataRow)
  | [] => .ok []
  | r :: rs => do
    let d ← loadRow parseVal r
    let ds ← loadRows parseVal rs
    .ok (d :: ds)

/-- A concrete number parser for plain decimal literals
(`[-]digits[.digits]`), usable to instantiate `parseVal`.  Python's `float`
accepts further forms (exponents, `inf`, `nan`); the claims about `analyze`
only need that well-formed decimals parse and garbage does not. -/
def floatOfString (s : String) : Option ℚ :=
  let core : List Char → Option ℚ := fun cs =>
    let p1 := takeDigits cs
    if p1.1.isEmpty then none
    else
      match p1.2 with
      | [] => some (digitsToNat p1.1 : ℚ)
      | c :: rest =>
        if c = '.' then
          let p2 := takeDigits rest
          if p2.1.isEmpty then none
          else if p2.2.isEmpty then
            some ((digitsToNat p1.1 : ℚ) +
              (digitsToNat p2.1 : ℚ) / ((10 : ℚ) ^ p2.1.length))
          else none
        else none
  match s.data with
  | '-' :: cs => (core cs).map Neg.neg
  | cs => core cs

/-- `statistics.mean` of the `rel_comp_ratio` column (exact value, before the
6-significant-digit formatting; the source raises on an empty group, so the
value at `[]` is not meaningful). -/
def avg_rel_comp_ratio (rows : List DataRow) : ℚ :=
  (rows.map fun r => r.rel_comp_ratio).sum / (rows.length : ℚ)

/-- `statistics.mean` of the `rel_comp_time` column. -/
def avg_rel_comp_time (rows : List DataRow) : ℚ :=
  (rows.map fun r => r.rel_comp_time).sum / (rows.length : ℚ)

/-- `1 + len([row for row in rows if row.rel_comp_ratio > 1]) / len(rows)`. -/
def worse_comp_ratio (rows : List DataRow) : ℚ :=
  1 + ((rows.filter fun r => decide (1 < r.rel_comp_ratio)).length : ℚ) /
    (rows.length : ℚ)

/-- `1 + len([row for row in rows if row.rel_comp_time > 1]) / len(rows)`. -/
def worse_comp_time (rows : List DataRow) : ℚ :=
  1 + ((rows.filter fun r => decide (1 < r.rel_comp_time)).length : ℚ) /
    (rows.length : ℚ)

/-- `dict.setdefault(k, []).append(row)`: append `r` to the group of key `k`,
creating the group at the end (insertion order) when absent. -/
def insertGroup (k : String) (r : DataRow) :
    List (String × List DataRow) → List (String × List DataRow)
  | [] => [(k, [r])]
  | (k2, g) :: rest =>
    if k2 = k then (k2, g ++ [r]) :: rest else (k2, g) :: insertGroup k r rest

/-- The grouping dictionaries of `analyze` (`rows_by_file` / `rows_by_level`),
built row by row in reading order. -/
def groupRows (key : DataRow → String) (rows : List DataRow) :
    List (String × List DataRow) :=
  rows.foldl (fun acc r => insertGroup (key r) r acc) []

/-- Insert into a list sorted by `le` (used to model Python `sorted`). -/
def insertSortedBy (le : α → α → Bool) (x : α) : List α → List α
  | [] => [x]
  | y :: ys => if le x y then x :: y :: ys else y :: insertSortedBy le x ys

/-- `sorted` by the boolean relation `le` (insertion sort; stable). -/
def sortOn (le : α → α → Bool) (xs : List α) : List α :=
  xs.foldr (insertSortedBy le) []

/-- Key order of `sorted(dict.items())`: dictionary keys are distinct, so the
tuple comparison never reaches the second components. -/
def keyLe (a b : String × List DataRow) : Bool :=
  decide (a.1 ≤ b.1)

/-- The summary entries of `analyze`, in emission order: the four full-dataset
statistics, then the file groups kind-major (each pass over
`sorted(rows_by_file.items())`), then the level groups kind-major (each pass
over `sorted(rows_by_level.items())`, sorting the level strings). -/
def analyzeEntries (rows : List DataRow) : List (String × ℚ) :=
  let byFile := sortOn keyLe (groupRows (fun r => r.file) rows)
  let byLevel := sortOn keyLe (groupRows (fun r => r.level) rows)
  [("all_avg_rel_comp_ratio", avg_rel_comp_ratio rows),
   ("all_avg_rel_comp_time", avg_rel_comp_time rows),
   ("all_worse_comp_ratio", worse_comp_ratio rows),
   ("all_worse_comp_time", worse_comp_time rows)]
  ++ byFile.map (fun fg => ("file_" ++ fg.1 ++ "_avg_rel_comp_ratio", avg_rel_comp_ratio fg.2))
  ++ byFile.map (fun fg => ("file_" ++ fg.1 ++ "_avg_rel_comp_time", avg_rel_comp_time fg.2))
  ++ byFile.map (fun fg => ("file_" ++ fg.1 ++ "_worse_comp_ratio", worse_comp_ratio fg.2))
  ++ byFile.map (fun fg => ("file_" ++ fg.1 ++ "_worse_comp_time", worse_comp_time fg.2))
  ++ byLevel.map (fun lg => ("level" ++ lg.1 ++ "_avg_rel_comp_ratio", avg_rel_comp_ratio lg.2))
  ++ byLevel.map (fun lg => ("level" ++ lg.1 ++ "_avg_rel_comp_time", avg_rel_comp_time lg.2))
  ++ byLevel.map (fun lg => ("level" ++ lg.1 ++ "_worse_comp_ratio", worse_comp_ratio lg.2))
  ++ byLevel.map (fun lg => ("level" ++ lg.1 ++ "_worse_comp_time", worse_comp_time lg.2))

/-- One line of `analyze` output (header row, or one summary entry). -/
inductive OutLine where
  | header (names : List String)
  | entry (name : String) (value : ℚ)
  deriving DecidableEq

/-- `analyze`: the whole input is loaded (and every ratio field parsed) before
the first output line; on a malformed row the command fails having produced no
output at all. -/
def analyze (parseVal : String → Option ℚ) (raw : List RawRow) :
    Except LoadError (List OutLine) := do
  let rows ← loadRows parseVal raw
  .ok (.header ["name", "value"] ::
    (analyzeEntries rows).map fun e => .entry e.1 e.2)

/-! ### The compare pipeline -/

/-- A transient comparison record: `(val1, val2, val2 / val1)` keyed by name. -/
structure ComparisonEntry where
  name : String
  before : ℚ
  after : ℚ
  ratio : ℚ
  deriving DecidableEq

/-- `ZeroDivisionError` while computing `val2 / val1`. -/
inductive CompareError where
  | zeroDivision
  deriving DecidableEq

/-- The comparison loop of `compare`: for each name common to both summaries,
record `(val1, val2, val2 / val1)`.  The source iterates the (unordered) key
intersection; the model iterates the first summary in order, which agrees up
to the final ratio sort.  A zero previous value raises, as in Python. -/
def mkComparisons (s2 : List (String × ℚ)) :
    List (String × ℚ) → Except CompareError (List ComparisonEntry)
  | [] => .ok []
  | (n, v1) :: rest =>
    match s2.lookup n with
    | none => mkComparisons s2 rest
    | some v2 =>
      if v1 = 0 then .error .zeroDivision
      else (mkComparisons s2 rest).map
        fun es => { name := n, before := v1, after := v2, ratio := v2 / v1 } :: es

/-- `sorted(comparisons.items(), key=lambda item: item[1][2])`. -/
def compareEntries (s1 s2 : List (String × ℚ)) :
    Except CompareError (List ComparisonEntry) :=
  (mkComparisons s2 s1).map (sortOn fun a b => decide (a.ratio ≤ b.ratio))

/-- The print template of `compare`: `name: before => after (ratio)`.
`fmt` abstracts the numeral rendering of the Python float `print`. -/
def renderComparison (fmt : ℚ → String) (e : ComparisonEntry) : String :=
  e.name ++ ": " ++ fmt e.before ++ " => " ++ fmt e.after ++ " (" ++ fmt e.ratio ++ ")"

/-- `compare` on two loaded summary mappings: one printed line per common
name, sorted ascending by ratio. -/
def compare (fmt : ℚ → String) (s1 s2 : List (String × ℚ)) :
    Except CompareError (List String) :=
  (compareEntries s1 s2).map (List.map (renderComparison fmt))

/-! ### Statement helpers and concrete inputs used by witnesses -/

/-- The decimal strings of the valid levels `1..9` (a well-formed tabular
report per spec sections 3 and 6 has its `level` field in this range). -/
def digitStrings : List String :=
  ["1", "2", "3", "4", "5", "6", "7", "8", "9"]

/-- Numeric value of a level string (statement helper for "sorted by level
value"). -/
def levelValue (s : String) : Nat :=
  digitsToNat s.data

/-- A data row with a given `rel_comp_ratio` (spec section 8 example rows). -/
def relRatioRow (q : ℚ) : DataRow :=
  { file := "f", level := "1", abs_comp_ratio := 0
  , rel_comp_ratio := q, rel_comp_time := 0 }

/-- Candidate trial outputs: sizes 1000 to 500, speeds 10, 15, 12 MB/s. -/
def candTrial1 : String := "Compressed 1000 => 500 bytes\nCompression time: 100 ms (10 MB/s)"

def candTrial2 : String := "Compressed 1000 => 500 bytes\nCompression time: 66 ms (15 MB/s)"

def candTrial3 : String := "Compressed 1000 => 500 bytes\nCompression time: 83 ms (12 MB/s)"

/-- Baseline trial outputs: sizes 1000 to 600, speeds 20, 18, 19 MB/s. -/
def baseTrial1 : String := "Compressed 1000 => 600 bytes\nCompression time: 50 ms (20 MB/s)"

def baseTrial2 : String := "Compressed 1000 => 600 bytes\nCompression time: 55 ms (18 MB/s)"

def baseTrial3 : String := "Compressed 1000 => 600 bytes\nCompression time: 52 ms (19 MB/s)"

/-- Baseline trial outputs reporting uncompressed size 999 instead of 1000. -/
def mismatchTrial1 : String := "Compressed 999 => 600 bytes\nCompression time: 50 ms (20 MB/s)"

def mismatchTrial2 : String := "Compressed 999 => 600 bytes\nCompression time: 55 ms (18 MB/s)"

def mismatchTrial3 : String := "Compressed 999 => 600 bytes\nCompression time: 52 ms (19 MB/s)"

/-- A benchmark output whose MB/s value is not a pure integer. -/
def nonIntegerSpeedOutput : String :=
  "Compressed 1000 => 500 bytes\nCompression time: 5 ms (12.5 MB/s)"

/-- An output containing neither of the two expected patterns. -/
def patternFreeOutput : String := "internal error: out of memory"

/-- A deterministic Measurement Runner stub for the Corpus Driver. -/
def exampleBench (f : String) (lvl : Nat) : BenchmarkRow :=
  { file := f, level := lvl, abs_comp_ratio := 1 / 2
  , rel_comp_ratio := 1, rel_comp_time := 1 }

/-- A raw report row whose `abs_comp_ratio` field is not a number. -/
def badRatioRawRow : RawRow :=
  [("file", "a.txt"), ("level", "1"), ("abs_comp_ratio", "garbage"),
   ("rel_comp_ratio", "1.0"), ("rel_comp_time", "1.0")]

/-- A well-formed raw report row. -/
def goodRawRow : RawRow :=
  [("file", "a.txt"), ("level", "1"), ("abs_comp_ratio", "0.5"),
   ("rel_comp_ratio", "0.9"), ("rel_comp_time", "1.2")]

/-- Previous summary of the spec section 8 comparator example, with one
non-shared key `c`. -/
def summaryPrev : List (String × ℚ) :=
  [("a", 1), ("b", 2), ("c", 5)]

/-- Current summary of the comparator example, with one non-shared key `d`. -/
def summaryCurr : List (String × ℚ) :=
  [("a", 1), ("b", 1), ("d", 3)]

/-- The speed accumulation step of the sampling loop, named for the lemmas
about the fold. -/
def maxSpeed (a : Int) (s : Nat) : Int := max a (s : Int)

/-- A concrete total numeral rendering (the claims about `compare` treat the
float rendering abstractly). -/
def plainFmt (q : ℚ) : String :=
  toString q.num ++ "/" ++ toString q.den

end CorpusUtil

/-! ## Theorems -/

namespace CorpusUtil

theorem foldlMax_ge_init (cs : List Nat) :
    ∀ a : Int, a ≤ cs.foldl maxSpeed a := by
  induction cs with
  | nil => intro a; exact le_refl a
  | cons c cs ih =>
    intro a
    exact le_trans (le_max_left a (c : Int)) (ih (max a (c : Int)))

theorem foldlMax_ge_mem (cs : List Nat) :
    ∀ (a : Int) (s : Nat), s ∈ cs → (s : Int) ≤ cs.foldl maxSpeed a := by
  induction cs with
  | nil => intro a s hs; cases hs
  | cons c cs ih =>
    intro a s hs
    rcases List.mem_cons.mp hs with rfl | hs2
    · exact le_trans (le_max_right a (s : Int)) (foldlMax_ge_init cs (max a (s : Int)))
    · exact ih (max a (c : Int)) s hs2

theorem foldlMax_le (cs : List Nat) :
    ∀ (a M : Int), a ≤ M → (∀ s ∈ cs, (s : Int) ≤ M) →
      cs.foldl maxSpeed a ≤ M := by
  induction cs with
  | nil => intro a M ha _; exact ha
  | cons c cs ih =>
    intro a M ha h
    exact ih _ M (max_le ha (h c (List.mem_cons_self c cs))) fun s hs =>
      h s (List.mem_cons_of_mem c hs)

theorem foldlMax_eq (cs : List Nat) (M : Nat) (hmem : M ∈ cs) (hmax : ∀ s ∈ cs, s ≤ M) :
    cs.foldl maxSpeed (-1) = (M : Int) := by
  refine le_antisymm ?_ (foldlMax_ge_mem cs (-1) M hmem)
  refine foldlMax_le cs (-1) (M : Int) (by omega) fun s hs => ?_
  exact_mod_cast hmax s hs

theorem runTrials_forall2 {u c : Nat} {co : List String} {cs : List Nat}
    (h : List.Forall₂ (fun o s => parseBenchOutput o = Except.ok (u, c, s)) co cs) :
    ∀ (u0 c0 : Nat) (sp0 : Int), co ≠ [] →
      runTrials co u0 c0 sp0 = Except.ok (u, c, cs.foldl maxSpeed sp0) := by
  induction h with
  | nil => intro u0 c0 sp0 hne; exact absurd rfl hne
  | @cons o s co2 cs2 ho htail ih =>
    intro u0 c0 sp0 _
    have hstep : runTrials (o :: co2) u0 c0 sp0 = runTrials co2 u c (max sp0 (s : Int)) := by
      simp [runTrials, ho]
    rw [hstep, List.foldl_cons]
    cases co2 with
    | nil =>
      cases htail
      simp [runTrials, maxSpeed]
    | cons o2 co3 =>
      exact ih u c (max sp0 (s : Int)) (by simp)

theorem run_benchmark_prog_forall2 {u c : Nat} {co : List String} {cs : List Nat}
    (h : List.Forall₂ (fun o s => parseBenchOutput o = Except.ok (u, c, s)) co cs)
    (hne : co ≠ []) :
    run_benchmark_prog co = Except.ok (u, c, cs.foldl maxSpeed (-1)) := by
  cases co with
  | nil => exact absurd rfl hne
  | cons o co2 =>
    rw [run_benchmark_prog]
    exact runTrials_forall2 h 0 0 (-1) (by simp)

/-- C1: for a (file, level) pair whose candidate and baseline configurations
are each measured by `NTRIES` successful invocations (sizes deterministic
across trials, speeds as observed), the emitted row satisfies
`abs_comp_ratio = candidate.compressed_size / candidate.uncompressed_size`,
`rel_comp_ratio = candidate.compressed_size / baseline.compressed_size`, and
`rel_comp_time = baseline_speed / candidate_speed`, where each configuration
speed is the maximum of its `NTRIES` observed speed values. -/
theorem sample_collector_row_invariant (file : String) (level : Nat)
    (co bo : List String) (u c lu lc : Nat) (cs bs : List Nat) (Mc Mb : Nat)
    (hco : co.length = NTRIES) (hbo : bo.length = NTRIES)
    (hcand : List.Forall₂ (fun o s => parseBenchOutput o = Except.ok (u, c, s)) co cs)
    (hbase : List.Forall₂ (fun o s => parseBenchOutput o = Except.ok (lu, lc, s)) bo bs)
    (hMc1 : Mc ∈ cs) (hMc2 : ∀ s ∈ cs, s ≤ Mc)
    (hMb1 : Mb ∈ bs) (hMb2 : ∀ s ∈ bs, s ≤ Mb)
    (hsz : lu = u) (hu : u ≠ 0) (hlc : lc ≠ 0) (hMc0 : Mc ≠ 0) :
    benchmark_file_level file level co bo =
      Except.ok { file := file, level := level
                , abs_comp_ratio := (c : ℚ) / (u : ℚ)
                , rel_comp_ratio := (c : ℚ) / (lc : ℚ)
                , rel_comp_time := (Mb : ℚ) / (Mc : ℚ) } := by
  have hcne : co ≠ [] := by
    intro hnil; rw [hnil] at hco; simp [NTRIES] at hco
  have hbne : bo ≠ [] := by
    intro hnil; rw [hnil] at hbo; simp [NTRIES] at hbo
  have h1 : run_benchmark_prog co = Except.ok (u, c, (Mc : Int)) := by
    rw [run_benchmark_prog_forall2 hcand hcne, foldlMax_eq cs Mc hMc1 hMc2]
  have h2 : run_benchmark_prog bo = Except.ok (lu, lc, (Mb : Int)) := by
    rw [run_benchmark_prog_forall2 hbase hbne, foldlMax_eq bs Mb hMb1 hMb2]
  subst hsz
  have hMcZ : (Mc : Int) ≠ 0 := by exact_mod_cast hMc0
  simp [benchmark_file_level, h1, h2, hu, hlc, hMcZ, Bind.bind, Except.bind]

/-- Witness for C1 at the spec example: candidate speeds 10, 15, 12 and
baseline speeds 20, 18, 19 yield `rel_comp_time = 20/15`. -/
theorem sample_collector_row_invariant_witness :
    benchmark_file_level "file.txt" 1
        [candTrial1, candTrial2, candTrial3] [baseTrial1, baseTrial2, baseTrial3] =
      Except.ok { file := "file.txt", level := 1
                , abs_comp_ratio := (500 : ℚ) / 1000
                , rel_comp_ratio := (500 : ℚ) / 600
                , rel_comp_time := (20 : ℚ) / 15 } := by
  have h := sample_collector_row_invariant "file.txt" 1
    [candTrial1, candTrial2, candTrial3] [baseTrial1, baseTrial2, baseTrial3]
    1000 500 1000 600 [10, 15, 12] [20, 18, 19] 15 20
    rfl rfl
    (List.Forall₂.cons rfl (List.Forall₂.cons rfl (List.Forall₂.cons rfl List.Forall₂.nil)))
    (List.Forall₂.cons rfl (List.Forall₂.cons rfl (List.Forall₂.cons rfl List.Forall₂.nil)))
    (by decide) (by decide) (by decide) (by decide)
    rfl (by decide) (by decide) (by decide)
  rw [h]
  norm_num

/-- C5: when candidate and baseline report different uncompressed sizes, the
Sample Collector fails with the fatal consistency error and emits no row. -/
theorem consistency_mismatch_fatal (file : String) (level : Nat)
    (co bo : List String) (u c : Nat) (sp : Int) (lu lc : Nat) (lsp : Int)
    (hc : run_benchmark_prog co = Except.ok (u, c, sp))
    (hb : run_benchmark_prog bo = Except.ok (lu, lc, lsp))
    (hne : u ≠ lu) :
    benchmark_file_level file level co bo = Except.error BenchError.consistency
      ∧ ∀ r, benchmark_file_level file level co bo ≠ Except.ok r := by
  have h : benchmark_file_level file level co bo = Except.error BenchError.consistency := by
    simp [benchmark_file_level, hc, hb, hne, Bind.bind, Except.bind]
  exact ⟨h, fun r hr => by rw [h] at hr; cases hr⟩

/-- Witness for C5: uncompressed size 1000 for the candidate and 999 for the
baseline raise the consistency error and produce no row. -/
theorem consistency_mismatch_fatal_witness :
    benchmark_file_level "file.txt" 1
        [candTrial1, candTrial2, candTrial3]
        [mismatchTrial1, mismatchTrial2, mismatchTrial3]
      = Except.error BenchError.consistency
      ∧ ∀ r, benchmark_file_level "file.txt" 1
          [candTrial1, candTrial2, candTrial3]
          [mismatchTrial1, mismatchTrial2, mismatchTrial3] ≠ Except.ok r :=
  consistency_mismatch_fatal "file.txt" 1 _ _ 1000 500 15 999 600 20
    rfl rfl (by decide)

theorem runTrials_mem_error (o : String)
    (he : ∀ t, parseBenchOutput o ≠ Except.ok t) :
    ∀ (outs : List String), o ∈ outs →
      ∀ (u0 c0 : Nat) (sp0 : Int) (r : Nat × Nat × Int),
        runTrials outs u0 c0 sp0 ≠ Except.ok r := by
  intro outs
  induction outs with
  | nil => intro ho; cases ho
  | cons x xs ih =>
    intro ho u0 c0 sp0 r
    cases hp : parseBenchOutput x with
    | error e => simp [runTrials, hp]
    | ok t =>
      have ho2 : o ∈ xs := by
        rcases List.mem_cons.mp ho with rfl | h2
        · exact absurd hp (he t)
        · exact h2
      obtain ⟨a, b, s⟩ := t
      simp only [runTrials, hp]
      exact ih ho2 a b (max sp0 (s : Int)) r

/-- C9: whenever the size pattern or the speed pattern is absent from a
benchmark-process output, the Measurement Runner fails with a parse error
rather than returning, no measurement triple is produced from that output,
and a sampling run containing that output never returns a result. -/
theorem parse_error_on_missing_pattern (out : String)
    (h : searchCompressed out.data = none ∨ searchTime out.data = none) :
    (∃ e, parseBenchOutput out = Except.error e
        ∧ (e = BenchError.parseSize ∨ e = BenchError.parseSpeed))
    ∧ (∀ t, parseBenchOutput out ≠ Except.ok t)
    ∧ (∀ (outs : List String) (r : Nat × Nat × Int),
        out ∈ outs → run_benchmark_prog outs ≠ Except.ok r) := by
  have hmain : ∃ e, parseBenchOutput out = Except.error e
      ∧ (e = BenchError.parseSize ∨ e = BenchError.parseSpeed) := by
    cases hsc : searchCompressed out.data with
    | none => exact ⟨BenchError.parseSize, by simp [parseBenchOutput, hsc], Or.inl rfl⟩
    | some p =>
      have hst : searchTime out.data = none := by
        rcases h with h1 | h1
        · rw [hsc] at h1; cases h1
        · exact h1
      obtain ⟨pu, pc⟩ := p
      exact ⟨BenchError.parseSpeed, by simp [parseBenchOutput, hsc, hst], Or.inr rfl⟩
  obtain ⟨e, he, hkind⟩ := hmain
  have hnok : ∀ t, parseBenchOutput out ≠ Except.ok t := by
    intro t ht; rw [he] at ht; cases ht
  refine ⟨⟨e, he, hkind⟩, hnok, ?_⟩
  intro outs r hmem
  cases outs with
  | nil => cases hmem
  | cons x xs =>
    rw [run_benchmark_prog]
    exact runTrials_mem_error out hnok (x :: xs) hmem 0 0 (-1) r

/-- Witness for C9: an output with neither pattern yields a parse error. -/
theorem parse_error_on_missing_pattern_witness :
    (∃ e, parseBenchOutput patternFreeOutput = Except.error e
        ∧ (e = BenchError.parseSize ∨ e = BenchError.parseSpeed))
    ∧ (∀ t, parseBenchOutput patternFreeOutput ≠ Except.ok t)
    ∧ (∀ (outs : List String) (r : Nat × Nat × Int),
        patternFreeOutput ∈ outs → run_benchmark_prog outs ≠ Except.ok r) :=
  parse_error_on_missing_pattern patternFreeOutput (Or.inl rfl)

theorem takeDigits_all_digits (cs : List Char) :
    ∀ ch ∈ (takeDigits cs).1, ch.isDigit = true := by
  induction cs with
  | nil => intro ch h; cases h
  | cons c rest ih =>
    intro ch h
    by_cases hc : c.isDigit
    · rw [takeDigits] at h
      simp only [hc, if_true] at h
      rcases List.mem_cons.mp h with rfl | h2
      · exact hc
      · exact ih ch h2
    · rw [takeDigits] at h
      simp only [hc, if_false] at h
      cases h

theorem reSearch_exists {α : Type} (m : List Char → Option α) (s : List Char) (r : α)
    (h : reSearch m s = some r) : ∃ s2, m s2 = some r := by
  induction s with
  | nil => exact ⟨[], h⟩
  | cons ch rest ih =>
    rw [reSearch] at h
    cases hm : m (ch :: rest) with
    | some r2 => rw [hm] at h; cases h; exact ⟨ch :: rest, hm⟩
    | none => rw [hm] at h; exact ih h

theorem matchTimeAt_group_digits (s g : List Char) (h : matchTimeAt s = some g) :
    g ≠ [] ∧ ∀ ch ∈ g, ch.isDigit = true := by
  rw [matchTimeAt] at h
  cases h1 : matchLit "Compression time: ".data s with
  | none => rw [h1] at h; cases h
  | some s1 =>
    rw [h1] at h
    simp only [Option.bind_some, Option.some_bind, Option.bind_eq_bind] at h
    by_cases he1 : (takeDigits s1).1.isEmpty
    · simp [he1] at h
    · simp only [he1, if_false, Bool.false_eq_true] at h
      cases h2 : matchLit " ms (".data (takeDigits s1).2 with
      | none => rw [h2] at h; cases h
      | some s2 =>
        rw [h2] at h
        simp only [Option.some_bind] at h
        by_cases he2 : (takeDigits s2).1.isEmpty
        · simp [he2] at h
        · simp only [he2, if_false, Bool.false_eq_true] at h
          cases h3 : matchLit " MB/s)".data (takeDigits s2).2 with
          | none => rw [h3] at h; cases h
          | some s3 =>
            rw [h3] at h
            simp only [Option.some_bind] at h
            cases h
            refine ⟨?_, takeDigits_all_digits s2⟩
            intro hg
            rw [hg] at he2
            exact he2 rfl

/-- C10: a benchmark output whose MB/s value is not a pure integer fails the
speed pattern even when the size pattern matched, so the runner raises
instead of returning; in general, any speed group the pattern captures is a
non-empty string of decimal digits. -/
theorem integer_speed_values_only :
    searchCompressed nonIntegerSpeedOutput.data = some (1000, 500)
    ∧ searchTime nonIntegerSpeedOutput.data = none
    ∧ parseBenchOutput nonIntegerSpeedOutput = Except.error BenchError.parseSpeed
    ∧ ∀ s g, searchTime s = some g → g ≠ [] ∧ ∀ ch ∈ g, ch.isDigit = true := by
  refine ⟨rfl, rfl, rfl, ?_⟩
  intro s g h
  obtain ⟨s2, h2⟩ := reSearch_exists matchTimeAt s g h
  exact matchTimeAt_group_digits s2 g h2

/-- Witness for C10: the captured speed group of a matching output is a
non-empty digit string. -/
theorem integer_speed_values_only_witness :
    (['1', '2'] : List Char) ≠ [] ∧ ∀ ch ∈ (['1', '2'] : List Char), ch.isDigit = true :=
  integer_speed_values_only.2.2.2 "Compression time: 3 ms (12 MB/s)".data ['1', '2'] rfl

/-- C8: `analyze` is deterministic — identical input reports produce
identical summary reports (the model is a pure function of the input; the
source's dictionaries iterate in insertion order and `sorted` is
deterministic, so no other run-to-run variation exists). -/
theorem analyze_deterministic (parseVal : String → Option ℚ) (raw1 raw2 : List RawRow)
    (h : raw1 = raw2) : analyze parseVal raw1 = analyze parseVal raw2 := by
  rw [h]

/-- Witness for C8 on a concrete one-row report. -/
theorem analyze_deterministic_witness :
    analyze floatOfString [goodRawRow] = analyze floatOfString [goodRawRow] :=
  analyze_deterministic floatOfString [goodRawRow] [goodRawRow] rfl

theorem loadRows_error_of_bad_row (parseVal : String → Option ℚ) :
    ∀ (raw : List RawRow), (∃ r ∈ raw, ∃ e, loadRow parseVal r = Except.error e) →
      ∃ e2, loadRows parseVal raw = Except.error e2 := by
  intro raw
  induction raw with
  | nil => intro h; obtain ⟨r, hr, _⟩ := h; cases hr
  | cons r rs ih =>
    intro h
    cases hl : loadRow parseVal r with
    | error e => exact ⟨e, by simp [loadRows, hl, Bind.bind, Except.bind]⟩
    | ok d =>
      obtain ⟨r2, hr2, e2, he2⟩ := h
      have hr3 : r2 ∈ rs := by
        rcases List.mem_cons.mp hr2 with rfl | h2
        · rw [hl] at he2; cases he2
        · exact h2
      obtain ⟨e3, he3⟩ := ih ⟨r2, hr3, e2, he2⟩
      refine ⟨e3, ?_⟩
      simp [loadRows, hl, he3, Bind.bind, Except.bind]

/-- C6: a tabular report containing a row with an unparseable ratio field or
a missing required column makes `analyze` fail during loading, emitting no
output line at all (not even the header). -/
theorem analyze_fails_before_output (parseVal : String → Option ℚ) (raw : List RawRow)
    (h : ∃ r ∈ raw, ∃ e, loadRow parseVal r = Except.error e) :
    (∃ e2, analyze parseVal raw = Except.error e2)
    ∧ ∀ lines, analyze parseVal raw ≠ Except.ok lines := by
  obtain ⟨e2, he2⟩ := loadRows_error_of_bad_row parseVal raw h
  have hmain : analyze parseVal raw = Except.error e2 := by
    simp [analyze, he2, Bind.bind, Except.bind]
  exact ⟨⟨e2, hmain⟩, fun lines hl => by rw [hmain] at hl; cases hl⟩

/-- Witness for C6: a report whose second row has `abs_comp_ratio` text
`garbage` fails wholesale. -/
theorem analyze_fails_before_output_witness :
    (∃ e2, analyze floatOfString [goodRawRow, badRatioRawRow] = Except.error e2)
    ∧ ∀ lines, analyze floatOfString [goodRawRow, badRatioRawRow] ≠ Except.ok lines :=
  analyze_fails_before_output floatOfString [goodRawRow, badRatioRawRow]
    ⟨badRatioRawRow, List.mem_cons_of_mem _ (List.mem_cons_self _ _),
     LoadError.badNumber "abs_comp_ratio", rfl⟩

/-- C2: for every group of rows the Summary Aggregator computes
`avg_rel_comp_ratio`/`avg_rel_comp_time` as the arithmetic mean of the field
over the group and `worse_comp_ratio`/`worse_comp_time` as one plus the
fraction of rows with the field strictly greater than one; in particular
`rel_comp_ratio` values `[0.9, 1.0, 1.1]` give mean exactly 1 and
`worse_comp_ratio = 1 + 1/3` (the `1.0` row not counting as worse). -/
theorem summary_group_statistics (rows : List DataRow) (_hne : rows ≠ []) :
    (avg_rel_comp_ratio rows
        = (rows.map fun r => r.rel_comp_ratio).sum / (rows.length : ℚ)
      ∧ avg_rel_comp_time rows
        = (rows.map fun r => r.rel_comp_time).sum / (rows.length : ℚ)
      ∧ worse_comp_ratio rows
        = 1 + ((rows.filter fun r => decide (1 < r.rel_comp_ratio)).length : ℚ)
            / (rows.length : ℚ)
      ∧ worse_comp_time rows
        = 1 + ((rows.filter fun r => decide (1 < r.rel_comp_time)).length : ℚ)
            / (rows.length : ℚ))
    ∧ avg_rel_comp_ratio [relRatioRow (9/10), relRatioRow 1, relRatioRow (11/10)] = 1
    ∧ worse_comp_ratio [relRatioRow (9/10), relRatioRow 1, relRatioRow (11/10)]
        = 1 + 1/3 := by
  refine ⟨⟨rfl, rfl, rfl, rfl⟩, ?_, ?_⟩
  · norm_num [avg_rel_comp_ratio, relRatioRow]
  · norm_num [worse_comp_ratio, relRatioRow]

/-- Witness for C2 on a concrete singleton group. -/
theorem summary_group_statistics_witness :
    ((avg_rel_comp_ratio [relRatioRow 2]
        = ([relRatioRow 2].map fun r => r.rel_comp_ratio).sum
            / (([relRatioRow 2] : List DataRow).length : ℚ)
      ∧ avg_rel_comp_time [relRatioRow 2]
        = ([relRatioRow 2].map fun r => r.rel_comp_time).sum
            / (([relRatioRow 2] : List DataRow).length : ℚ)
      ∧ worse_comp_ratio [relRatioRow 2]
        = 1 + (([relRatioRow 2].filter fun r => decide (1 < r.rel_comp_ratio)).length : ℚ)
            / (([relRatioRow 2] : List DataRow).length : ℚ)
      ∧ worse_comp_time [relRatioRow 2]
        = 1 + (([relRatioRow 2].filter fun r => decide (1 < r.rel_comp_time)).length : ℚ)
            / (([relRatioRow 2] : List DataRow).length : ℚ))
    ∧ avg_rel_comp_ratio [relRatioRow (9/10), relRatioRow 1, relRatioRow (11/10)] = 1
    ∧ worse_comp_ratio [relRatioRow (9/10), relRatioRow 1, relRatioRow (11/10)]
        = 1 + 1/3) :=
  summary_group_statistics [relRatioRow 2] (by simp)

theorem flatMap_nine_length (f : String → List RunLine) (h9 : ∀ x, (f x).length = 9) :
    ∀ listing : List String, (listing.flatMap f).length = 9 * listing.length := by
  intro listing
  induction listing with
  | nil => rfl
  | cons a l ih =>
    rw [List.flatMap_cons, List.length_append, h9, ih, List.length_cons]
    ring

theorem flatMap_nine_get (f : String → List RunLine) (h9 : ∀ x, (f x).length = 9) :
    ∀ (listing : List String) (i j : Nat) (hi : i < listing.length), j < 9 →
      (listing.flatMap f)[9 * i + j]? = (f (listing.get ⟨i, hi⟩))[j]? := by
  intro listing
  induction listing with
  | nil => intro i j hi; cases hi
  | cons a l ih =>
    intro i j hi hj
    cases i with
    | zero =>
      rw [List.flatMap_cons]
      have hlt : j < (f a).length := by rw [h9]; exact hj
      rw [Nat.mul_zero, Nat.zero_add, List.getElem?_append_left hlt]
      rfl
    | succ i2 =>
      rw [List.flatMap_cons]
      have hge : (f a).length ≤ 9 * (i2 + 1) + j := by rw [h9]; omega
      rw [List.getElem?_append_right hge]
      have harith : 9 * (i2 + 1) + j - (f a).length = 9 * i2 + j := by rw [h9]; omega
      rw [harith]
      exact ih i2 j (Nat.lt_of_succ_lt_succ hi) hj

/-- C7: `run` emits the header line followed by exactly one row per
(directory entry, level) pair, with levels 1 through 9 inclusive, in
file-major order (all nine levels of one entry, in increasing level order,
before the next entry), with no filtering of entries. -/
theorem corpus_driver_enumeration (bench : String → Nat → BenchmarkRow)
    (listing : List String) :
    (run bench listing).length = 1 + 9 * listing.length
    ∧ (run bench listing).head?
        = some (RunLine.header "file,level,abs_comp_ratio,rel_comp_ratio,rel_comp_time")
    ∧ ∀ (i lvl : Nat) (hi : i < listing.length), 1 ≤ lvl → lvl ≤ 9 →
        (run bench listing)[1 + 9 * i + (lvl - 1)]? =
          some (RunLine.row (bench (listing.get ⟨i, hi⟩) lvl)) := by
  have h9 : ∀ x : String,
      ((List.range' 1 9).map fun lvl => RunLine.row (bench x lvl)).length = 9 := by
    intro x; rw [List.length_map, List.length_range']
  refine ⟨?_, rfl, ?_⟩
  · rw [run, List.length_cons, flatMap_nine_length _ h9 listing]
    ring
  · intro i lvl hi h1 h9b
    have hidx : 1 + 9 * i + (lvl - 1) = (9 * i + (lvl - 1)) + 1 := by omega
    rw [run, hidx, List.getElem?_cons_succ,
      flatMap_nine_get _ h9 listing i (lvl - 1) hi (by omega)]
    have hlt : lvl - 1 < (List.range' 1 9).length := by
      rw [List.length_range']; omega
    rw [List.getElem?_map, List.getElem?_eq_getElem hlt, List.getElem_range']
    have : 1 + 1 * (lvl - 1) = lvl := by omega
    rw [this]
    rfl

/-- Witness for C7: in a two-entry listing, position `1 + 9*1 + (5-1)` holds
the row for the second entry at level 5. -/
theorem corpus_driver_enumeration_witness :
    (run exampleBench ["a", "b"])[1 + 9 * 1 + (5 - 1)]? =
      some (RunLine.row (exampleBench "b" 5)) :=
  (corpus_driver_enumeration exampleBench ["a", "b"]).2.2 1 5 (by decide)
    (by decide) (by decide)

theorem insertSortedBy_perm {α : Type} (le : α → α → Bool) (x : α) (ys : List α) :
    (insertSortedBy le x ys).Perm (x :: ys) := by
  induction ys with
  | nil => exact List.Perm.refl _
  | cons y ys ih =>
    rw [insertSortedBy]
    by_cases h : le x y = true
    · rw [if_pos h]
    · rw [if_neg h]
      exact (List.Perm.cons y ih).trans (List.Perm.swap x y ys)

theorem sortOn_perm {α : Type} (le : α → α → Bool) (xs : List α) :
    (sortOn le xs).Perm xs := by
  induction xs with
  | nil => exact List.Perm.refl _
  | cons x xs ih =>
    exact (insertSortedBy_perm le x (sortOn le xs)).trans (List.Perm.cons x ih)

theorem insertSortedBy_pairwise {α : Type} (le : α → α → Bool)
    (htrans : ∀ a b c, le a b = true → le b c = true → le a c = true)
    (htot : ∀ a b, le a b = true ∨ le b a = true) (x : α) (ys : List α)
    (h : ys.Pairwise fun a b => le a b = true) :
    (insertSortedBy le x ys).Pairwise fun a b => le a b = true := by
  induction ys with
  | nil => simp [insertSortedBy]
  | cons y ys ih =>
    rcases List.pairwise_cons.mp h with ⟨hy, hys⟩
    rw [insertSortedBy]
    by_cases hxy : le x y = true
    · rw [if_pos hxy]
      refine List.pairwise_cons.mpr ⟨?_, h⟩
      intro z hz
      rcases List.mem_cons.mp hz with rfl | hz2
      · exact hxy
      · exact htrans x y z hxy (hy z hz2)
    · rw [if_neg hxy]
      have hyx : le y x = true := (htot x y).resolve_left hxy
      refine List.pairwise_cons.mpr ⟨?_, ih hys⟩
      intro z hz
      have hz2 : z ∈ x :: ys := (insertSortedBy_perm le x ys).mem_iff.mp hz
      rcases List.mem_cons.mp hz2 with rfl | hz3
      · exact hyx
      · exact hy z hz3

theorem sortOn_pairwise {α : Type} (le : α → α → Bool)
    (htrans : ∀ a b c, le a b = true → le b c = true → le a c = true)
    (htot : ∀ a b, le a b = true ∨ le b a = true) (xs : List α) :
    (sortOn le xs).Pairwise fun a b => le a b = true := by
  induction xs with
  | nil => exact List.Pairwise.nil
  | cons x xs ih => exact insertSortedBy_pairwise le htrans htot x (sortOn le xs) ih

theorem lookup_mem {β : Type} (l : List (String × β)) (n : String) (v : β)
    (h : l.lookup n = some v) : (n, v) ∈ l := by
  induction l with
  | nil => cases h
  | cons p l ih =>
    obtain ⟨k, b⟩ := p
    rw [List.lookup] at h
    cases hbeq : n == k with
    | true =>
      rw [hbeq] at h
      cases h
      exact (beq_iff_eq.mp hbeq) ▸ List.mem_cons_self _ _
    | false =>
      rw [hbeq] at h
      exact List.mem_cons_of_mem _ (ih h)

theorem lookup_isSome_iff {β : Type} (l : List (String × β)) (n : String) :
    (l.lookup n).isSome = true ↔ n ∈ l.map Prod.fst := by
  induction l with
  | nil => simp [List.lookup]
  | cons p l ih =>
    obtain ⟨k, b⟩ := p
    rw [List.lookup]
    cases hbeq : n == k with
    | true =>
      have hk : n = k := beq_iff_eq.mp hbeq
      simp [hk]
    | false =>
      have hk : n ≠ k := by intro he; rw [he] at hbeq; simp at hbeq
      simp [ih, hk]

theorem mkComparisons_ok (s2 : List (String × ℚ)) :
    ∀ (s1 : List (String × ℚ)),
      (∀ nv ∈ s1, nv.1 ∈ s2.map Prod.fst → nv.2 ≠ 0) →
      ∃ es, mkComparisons s2 s1 = Except.ok es
        ∧ (es.map fun e => e.name)
            = (s1.filter fun nv => (s2.lookup nv.1).isSome).map Prod.fst
        ∧ ∀ e ∈ es, (e.name, e.before) ∈ s1 ∧ s2.lookup e.name = some e.after
            ∧ e.ratio = e.after / e.before := by
  intro s1
  induction s1 with
  | nil => exact fun _ => ⟨[], rfl, rfl, fun e he => absurd he (List.not_mem_nil e)⟩
  | cons p rest ih =>
    intro h
    obtain ⟨n, v1⟩ := p
    obtain ⟨es, he, hnames, hprops⟩ :=
      ih fun nv hm hs => h nv (List.mem_cons_of_mem _ hm) hs
    cases hl : s2.lookup n with
    | none =>
      refine ⟨es, ?_, ?_, ?_⟩
      · rw [mkComparisons, hl]
        exact he
      · rw [hnames]
        rw [List.filter_cons_of_neg (by simp [hl])]
      · intro e hme
        obtain ⟨h1, h2, h3⟩ := hprops e hme
        exact ⟨List.mem_cons_of_mem _ h1, h2, h3⟩
    | some v2 =>
      have hv1 : v1 ≠ 0 := by
        refine h (n, v1) (List.mem_cons_self _ _) ?_
        exact (lookup_isSome_iff s2 n).mp (by rw [hl]; rfl)
      refine ⟨{ name := n, before := v1, after := v2, ratio := v2 / v1 } :: es, ?_, ?_, ?_⟩
      · simp only [mkComparisons, hl]
        rw [if_neg hv1, he]
        rfl
      · rw [List.filter_cons_of_pos (by simp [hl]), List.map_cons, List.map_cons, hnames]
      · intro e hme
        rcases List.mem_cons.mp hme with rfl | hme2
        · exact ⟨List.mem_cons_self _ _, hl, rfl⟩
        · obtain ⟨h1, h2, h3⟩ := hprops e hme2
          exact ⟨List.mem_cons_of_mem _ h1, h2, h3⟩

/-- C3: `compare` emits exactly one line per statistic name present in both
reports (non-shared names are silently dropped), each line rendered as
`name: before => after (ratio)` with `ratio = after / before` (second report
value over first), and the lines are sorted ascending by ratio, independent
of the statistic name. -/
theorem snapshot_comparator_output (fmt : ℚ → String) (s1 s2 : List (String × ℚ))
    (hnd : (s1.map Prod.fst).Nodup)
    (h0 : ∀ nv ∈ s1, nv.1 ∈ s2.map Prod.fst → nv.2 ≠ 0) :
    ∃ entries : List ComparisonEntry,
      compare fmt s1 s2 = Except.ok (entries.map (renderComparison fmt))
      ∧ (entries.map fun e => e.name).Nodup
      ∧ (∀ n, n ∈ entries.map (fun e => e.name)
          ↔ n ∈ s1.map Prod.fst ∧ n ∈ s2.map Prod.fst)
      ∧ entries.Pairwise (fun a b => a.ratio ≤ b.ratio)
      ∧ (∀ e ∈ entries, (e.name, e.before) ∈ s1 ∧ (e.name, e.after) ∈ s2
          ∧ e.ratio = e.after / e.before)
      ∧ ∀ e ∈ entries, renderComparison fmt e
          = e.name ++ ": " ++ fmt e.before ++ " => " ++ fmt e.after
            ++ " (" ++ fmt e.ratio ++ ")" := by
  obtain ⟨es, he, hnames, hprops⟩ := mkComparisons_ok s2 s1 h0
  set le : ComparisonEntry → ComparisonEntry → Bool :=
    fun a b => decide (a.ratio ≤ b.ratio) with hle
  refine ⟨sortOn le es, ?_, ?_, ?_, ?_, ?_, ?_⟩
  · rw [compare, compareEntries, he]
    rfl
  · have hperm : ((sortOn le es).map fun e => e.name).Perm (es.map fun e => e.name) :=
      (sortOn_perm le es).map _
    refine hperm.nodup_iff.mpr ?_
    rw [hnames]
    exact List.Nodup.sublist ((List.filter_sublist s1).map Prod.fst) hnd
  · intro n
    have hperm : ((sortOn le es).map fun e => e.name).Perm (es.map fun e => e.name) :=
      (sortOn_perm le es).map _
    rw [hperm.mem_iff, hnames]
    constructor
    · intro hn
      obtain ⟨nv, hnv, rfl⟩ := List.mem_map.mp hn
      obtain ⟨hm, hs⟩ := List.mem_filter.mp hnv
      exact ⟨List.mem_map_of_mem Prod.fst hm,
        (lookup_isSome_iff s2 nv.1).mp (by simpa using hs)⟩
    · rintro ⟨h1, h2⟩
      obtain ⟨nv, hm, rfl⟩ := List.mem_map.mp h1
      refine List.mem_map_of_mem Prod.fst (List.mem_filter.mpr ⟨hm, ?_⟩)
      simpa using (lookup_isSome_iff s2 nv.1).mpr h2
  · have htrans : ∀ a b c : ComparisonEntry,
        le a b = true → le b c = true → le a c = true := by
      intro a b c hab hbc
      exact decide_eq_true (le_trans (of_decide_eq_true hab) (of_decide_eq_true hbc))
    have htot : ∀ a b : ComparisonEntry, le a b = true ∨ le b a = true := by
      intro a b
      rcases le_total a.ratio b.ratio with h | h
      · exact Or.inl (decide_eq_true h)
      · exact Or.inr (decide_eq_true h)
    exact (sortOn_pairwise le htrans htot es).imp fun h => of_decide_eq_true h
  · intro e hme
    have hmem : e ∈ es := ((sortOn_perm le es).mem_iff).mp hme
    obtain ⟨h1, h2, h3⟩ := hprops e hmem
    exact ⟨h1, lookup_mem s2 e.name e.after h2, h3⟩
  · intro e _
    rfl

/-- Witness for C3 at the spec example: shared keys `a` (1 to 1) and `b`
(2 to 1), one non-shared key in each report. -/
theorem snapshot_comparator_output_witness :
    ∃ entries : List ComparisonEntry,
      compare plainFmt summaryPrev summaryCurr
          = Except.ok (entries.map (renderComparison plainFmt))
      ∧ (entries.map fun e => e.name).Nodup
      ∧ (∀ n, n ∈ entries.map (fun e => e.name)
          ↔ n ∈ summaryPrev.map Prod.fst ∧ n ∈ summaryCurr.map Prod.fst)
      ∧ entries.Pairwise (fun a b => a.ratio ≤ b.ratio)
      ∧ (∀ e ∈ entries, (e.name, e.before) ∈ summaryPrev
          ∧ (e.name, e.after) ∈ summaryCurr ∧ e.ratio = e.after / e.before)
      ∧ ∀ e ∈ entries, renderComparison plainFmt e
          = e.name ++ ": " ++ plainFmt e.before ++ " => " ++ plainFmt e.after
            ++ " (" ++ plainFmt e.ratio ++ ")" :=
  snapshot_comparator_output plainFmt summaryPrev summaryCurr (by decide) (by decide)

theorem insertGroup_keys (k : String) (r : DataRow)
    (gs : List (String × List DataRow)) :
    (insertGroup k r gs).map Prod.fst
      = if k ∈ gs.map Prod.fst then gs.map Prod.fst
        else gs.map Prod.fst ++ [k] := by
  induction gs with
  | nil => simp [insertGroup]
  | cons p gs ih =>
    obtain ⟨k2, g⟩ := p
    by_cases h : k2 = k
    · subst h
      simp [insertGroup]
    · rw [insertGroup, if_neg h, List.map_cons, ih, List.map_cons]
      by_cases h2 : k ∈ gs.map Prod.fst
      · rw [if_pos h2, if_pos (List.mem_cons_of_mem _ h2)]
      · rw [if_neg h2, if_neg ?_, List.cons_append]
        intro hc
        rcases List.mem_cons.mp hc with hc2 | hc2
        · exact h hc2.symm
        · exact h2 hc2

theorem groupRows_keys_mem_aux (key : DataRow → String) :
    ∀ (rows : List DataRow) (acc : List (String × List DataRow)) (n : String),
      (n ∈ (rows.foldl (fun a r => insertGroup (key r) r a) acc).map Prod.fst)
        ↔ n ∈ acc.map Prod.fst ∨ ∃ r ∈ rows, key r = n := by
  intro rows
  induction rows with
  | nil => simp
  | cons r rows ih =>
    intro acc n
    rw [List.foldl_cons, ih]
    have hstep : n ∈ (insertGroup (key r) r acc).map Prod.fst
        ↔ n ∈ acc.map Prod.fst ∨ n = key r := by
      rw [insertGroup_keys]
      by_cases h : key r ∈ acc.map Prod.fst
      · rw [if_pos h]
        constructor
        · exact Or.inl
        · rintro (h2 | rfl)
          · exact h2
          · exact h
      · rw [if_neg h]
        simp [List.mem_append]
    rw [hstep]
    simp only [List.mem_cons]
    constructor
    · rintro ((h1 | h1) | ⟨r2, h2, h3⟩)
      · exact Or.inl h1
      · exact Or.inr ⟨r, Or.inl rfl, h1.symm⟩
      · exact Or.inr ⟨r2, Or.inr h2, h3⟩
    · rintro (h1 | ⟨r2, h2 | h2, h3⟩)
      · exact Or.inl (Or.inl h1)
      · exact Or.inl (Or.inr (by rw [h2] at h3; exact h3.symm))
      · exact Or.inr ⟨r2, h2, h3⟩

theorem groupRows_keys_mem (key : DataRow → String) (rows : List DataRow) (n : String) :
    n ∈ (groupRows key rows).map Prod.fst ↔ ∃ r ∈ rows, key r = n := by
  rw [groupRows, groupRows_keys_mem_aux key rows [] n]
  simp

theorem groupRows_keys_nodup_aux (key : DataRow → String) :
    ∀ (rows : List DataRow) (acc : List (String × List DataRow)),
      (acc.map Prod.fst).Nodup →
      ((rows.foldl (fun a r => insertGroup (key r) r a) acc).map Prod.fst).Nodup := by
  intro rows
  induction rows with
  | nil => exact fun acc h => h
  | cons r rows ih =>
    intro acc hacc
    rw [List.foldl_cons]
    refine ih _ ?_
    rw [insertGroup_keys]
    by_cases h : key r ∈ acc.map Prod.fst
    · rw [if_pos h]; exact hacc
    · rw [if_neg h]
      simp [List.nodup_append, hacc, h]

theorem groupRows_keys_nodup (key : DataRow → String) (rows : List DataRow) :
    ((groupRows key rows).map Prod.fst).Nodup :=
  groupRows_keys_nodup_aux key rows [] List.Pairwise.nil

theorem keyLe_trans : ∀ x y z : String × List DataRow,
    keyLe x y = true → keyLe y z = true → keyLe x z = true := by
  intro x y z h1 h2
  exact decide_eq_true (le_trans (of_decide_eq_true h1) (of_decide_eq_true h2))

theorem keyLe_total : ∀ x y : String × List DataRow,
    keyLe x y = true ∨ keyLe y x = true := by
  intro x y
  exact (le_total x.1 y.1).imp decide_eq_true decide_eq_true

theorem digit_string_lt_iff :
    ∀ a ∈ digitStrings, ∀ b ∈ digitStrings,
      (a < b ↔ levelValue a < levelValue b) := by
  intro a ha b hb
  rw [String.lt_iff_toList_lt]
  fin_cases ha <;> fin_cases hb <;> decide

theorem sorted_group_keys_pairwise_lt (key : DataRow → String) (rows : List DataRow) :
    ((sortOn keyLe (groupRows key rows)).map Prod.fst).Pairwise fun a b => a < b := by
  have hpw := sortOn_pairwise keyLe keyLe_trans keyLe_total (groupRows key rows)
  have hle : ((sortOn keyLe (groupRows key rows)).map Prod.fst).Pairwise
      fun a b => a ≤ b :=
    List.pairwise_map.mpr (hpw.imp fun h => of_decide_eq_true h)
  have hnd : ((sortOn keyLe (groupRows key rows)).map Prod.fst).Nodup :=
    (((sortOn_perm keyLe (groupRows key rows)).map Prod.fst).nodup_iff).mpr
      (groupRows_keys_nodup key rows)
  exact (hle.and hnd).imp fun hh => lt_of_le_of_ne hh.1 hh.2

theorem sorted_group_keys_mem (key : DataRow → String) (rows : List DataRow)
    (n : String) :
    n ∈ (sortOn keyLe (groupRows key rows)).map Prod.fst
      ↔ ∃ r ∈ rows, key r = n := by
  rw [List.Perm.mem_iff ((sortOn_perm keyLe (groupRows key rows)).map Prod.fst)]
  exact groupRows_keys_mem key rows n

/-- C4: the Summary Aggregator emits the four full-dataset statistics first,
then the file-group statistics kind-major (all `avg_rel_comp_ratio` entries
across files, sorted ascending by file name, then `avg_rel_comp_time`, then
`worse_comp_ratio`, then `worse_comp_time`), then the level-group statistics
in the same kind-major order with the level groups sorted by level value. -/
theorem analyze_emission_order (rows : List DataRow) (_hne : rows ≠ [])
    (hlv : ∀ r ∈ rows, r.level ∈ digitStrings) :
    ∃ files levels : List String,
      files.Pairwise (fun a b => a < b)
      ∧ (∀ f, f ∈ files ↔ ∃ r ∈ rows, r.file = f)
      ∧ levels.Pairwise (fun a b => levelValue a < levelValue b)
      ∧ (∀ l, l ∈ levels ↔ ∃ r ∈ rows, r.level = l)
      ∧ (analyzeEntries rows).map Prod.fst
        = ["all_avg_rel_comp_ratio", "all_avg_rel_comp_time",
           "all_worse_comp_ratio", "all_worse_comp_time"]
          ++ files.map (fun f => "file_" ++ f ++ "_avg_rel_comp_ratio")
          ++ files.map (fun f => "file_" ++ f ++ "_avg_rel_comp_time")
          ++ files.map (fun f => "file_" ++ f ++ "_worse_comp_ratio")
          ++ files.map (fun f => "file_" ++ f ++ "_worse_comp_time")
          ++ levels.map (fun l => "level" ++ l ++ "_avg_rel_comp_ratio")
          ++ levels.map (fun l => "level" ++ l ++ "_avg_rel_comp_time")
          ++ levels.map (fun l => "level" ++ l ++ "_worse_comp_ratio")
          ++ levels.map (fun l => "level" ++ l ++ "_worse_comp_time") := by
  refine ⟨(sortOn keyLe (groupRows (fun r => r.file) rows)).map Prod.fst,
    (sortOn keyLe (groupRows (fun r => r.level) rows)).map Prod.fst,
    sorted_group_keys_pairwise_lt (fun r => r.file) rows,
    sorted_group_keys_mem (fun r => r.file) rows,
    ?_,
    sorted_group_keys_mem (fun r => r.level) rows,
    ?_⟩
  · have hdig : ∀ l ∈ (sortOn keyLe (groupRows (fun r => r.level) rows)).map Prod.fst,
        l ∈ digitStrings := by
      intro l hl
      obtain ⟨r, hr, hrl⟩ := (sorted_group_keys_mem (fun r => r.level) rows l).mp hl
      exact hrl ▸ hlv r hr
    exact (sorted_group_keys_pairwise_lt (fun r => r.level) rows).imp_of_mem
      fun ha hb hr => (digit_string_lt_iff _ (hdig _ ha) _ (hdig _ hb)).mp hr
  · simp only [analyzeEntries, List.map_append, List.map_cons, List.map_nil,
      List.map_map]
    rfl

/-- Witness for C4 on a concrete two-row report (files `b.txt`, `a.txt` and
levels `2`, `1` arrive unsorted). -/
theorem analyze_emission_order_witness :
    ∃ files levels : List String,
      files.Pairwise (fun a b => a < b)
      ∧ (∀ f, f ∈ files ↔ ∃ r ∈ [
          ({ file := "b.txt", level := "2", abs_comp_ratio := 1/2
           , rel_comp_ratio := 1, rel_comp_time := 1 } : DataRow),
          ({ file := "a.txt", level := "1", abs_comp_ratio := 1/2
           , rel_comp_ratio := 1, rel_comp_time := 1 } : DataRow)], r.file = f)
      ∧ levels.Pairwise (fun a b => levelValue a < levelValue b)
      ∧ (∀ l, l ∈ levels ↔ ∃ r ∈ [
          ({ file := "b.txt", level := "2", abs_comp_ratio := 1/2
           , rel_comp_ratio := 1, rel_comp_time := 1 } : DataRow),
          ({ file := "a.txt", level := "1", abs_comp_ratio := 1/2
           , rel_comp_ratio := 1, rel_comp_time := 1 } : DataRow)], r.level = l)
      ∧ (analyzeEntries [
          ({ file := "b.txt", level := "2", abs_comp_ratio := 1/2
           , rel_comp_ratio := 1, rel_comp_time := 1 } : DataRow),
          ({ file := "a.txt", level := "1", abs_comp_ratio := 1/2
           , rel_comp_ratio := 1, rel_comp_time := 1 } : DataRow)]).map Prod.fst
        = ["all_avg_rel_comp_ratio", "all_avg_rel_comp_time",
           "all_worse_comp_ratio", "all_worse_comp_time"]
          ++ files.map (fun f => "file_" ++ f ++ "_avg_rel_comp_ratio")
          ++ files.map (fun f => "file_" ++ f ++ "_avg_rel_comp_time")
          ++ files.map (fun f => "file_" ++ f ++ "_worse_comp_ratio")
          ++ files.map (fun f => "file_" ++ f ++ "_worse_comp_time")
          ++ levels.map (fun l => "level" ++ l ++ "_avg_rel_comp_ratio")
          ++ levels.map (fun l => "level" ++ l ++ "_avg_rel_comp_time")
          ++ levels.map (fun l => "level" ++ l ++ "_worse_comp_ratio")
          ++ levels.map (fun l => "level" ++ l ++ "_worse_comp_time") :=
  analyze_emission_order _ (by simp) (by
    intro r hr
    rcases List.mem_cons.mp hr with rfl | hr2
    · simp [digitStrings]
    · rcases List.mem_cons.mp hr2 with rfl | hr3
      · simp [digitStrings]
      · cases hr3)

end CorpusUtil
